import Mathlib

/-!
Verification of `src/main.py` (business_contact_scraper).

The Python program is shallowly embedded: every network interaction is a
function argument (a "world" mapping a URL / place id to an optional
response), Python exceptions are `Option`/`Except`/flags, the side effects
the claims talk about (HTTP GETs, `time.sleep(1)` in the crawler) are an
explicit event trace, and Python `str` operations are modelled over
`List Char` (`pySplit` for `str.split`, `pyLower` for ASCII `str.lower`).
-/

namespace Scraper

/-! ### Models of the Python string primitives used by `main.py` -/

/-- Model of Python `str.split(sep)` for a one-character separator:
`"a@b@c".split("@") = ["a","b","c"]`, `"".split("@") = [""]`. -/
def pySplitAux (sep : Char) : List Char → List Char → List String
  | [], acc => [String.mk acc.reverse]
  | c :: rest, acc =>
    if c = sep then String.mk acc.reverse :: pySplitAux sep rest []
    else pySplitAux sep rest (c :: acc)

/-- Model of Python `str.split(sep)` (single-character separator, no limit). -/
def pySplit (sep : Char) (s : String) : List String :=
  pySplitAux sep s.toList []

/-- ASCII lower-casing of one character, as Python `str.lower` acts on the
ASCII inputs this program manipulates. -/
def pyLowerChar (c : Char) : Char :=
  if 65 ≤ c.toNat ∧ c.toNat ≤ 90 then Char.ofNat (c.toNat + 32) else c

/-- Model of Python `str.lower()` (ASCII). -/
def pyLower (s : String) : String :=
  String.mk (s.toList.map pyLowerChar)

/-- Worker for `pyRemoveAll`: scan left to right, drop each occurrence of
the (non-empty) pattern, exactly Python's non-overlapping replacement. -/
def pyRemoveAllAux (pat : List Char) : Nat → List Char → List Char
  | 0, cs => cs
  | fuel + 1, cs =>
    if pat ≠ [] ∧ pat.isPrefixOf cs then pyRemoveAllAux pat fuel (cs.drop pat.length)
    else
      match cs with
      | [] => []
      | c :: rest => c :: pyRemoveAllAux pat fuel rest

/-- Model of Python `s.replace(pat, "")`: every occurrence of `pat`
removed, scanning left to right. -/
def pyRemoveAll (pat s : String) : String :=
  String.mk (pyRemoveAllAux pat.toList (s.toList.length + 1) s.toList)

/-- Model of Python `str.startswith`. -/
def pyStartsWith (pre s : String) : Bool :=
  pre.toList.isPrefixOf s.toList

theorem toNat_ofNat_of_valid (n : Nat) (h : n.isValidChar) :
    (Char.ofNat n).toNat = n := by
  simp only [Char.ofNat, dif_pos h, Char.ofNatAux, Char.toNat]
  rfl

theorem pyLowerChar_toNat_lower (c : Char)
    (h : 65 ≤ c.toNat ∧ c.toNat ≤ 90) :
    (pyLowerChar c).toNat = c.toNat + 32 := by
  have hv : (c.toNat + 32).isValidChar := by
    left
    omega
  simp only [pyLowerChar, if_pos h]
  exact toNat_ofNat_of_valid _ hv

theorem pyLowerChar_idem (c : Char) :
    pyLowerChar (pyLowerChar c) = pyLowerChar c := by
  by_cases h : 65 ≤ c.toNat ∧ c.toNat ≤ 90
  · have ht := pyLowerChar_toNat_lower c h
    rw [pyLowerChar, if_neg (by omega :
      ¬ (65 ≤ (pyLowerChar c).toNat ∧ (pyLowerChar c).toNat ≤ 90))]
  · have hc : pyLowerChar c = c := by rw [pyLowerChar, if_neg h]
    rw [hc]
    exact hc

theorem pyLowerChar_comp_idem : pyLowerChar ∘ pyLowerChar = pyLowerChar := by
  funext c
  exact pyLowerChar_idem c

theorem pyLower_idem (s : String) : pyLower (pyLower s) = pyLower s := by
  simp [pyLower, List.map_map, pyLowerChar_comp_idem]

/-- `pyLowerChar` maps a character to `'@'` only if it was `'@'`. -/
theorem pyLowerChar_eq_at (c : Char) : pyLowerChar c = '@' ↔ c = '@' := by
  constructor
  · intro h
    by_cases hc : 65 ≤ c.toNat ∧ c.toNat ≤ 90
    · exfalso
      have ht := pyLowerChar_toNat_lower c hc
      rw [h] at ht
      have h64 : ('@').toNat = 64 := rfl
      omega
    · rwa [pyLowerChar, if_neg hc] at h
  · intro h
    subst h
    rfl

/-! ### Model of `re.findall(email_pattern, page_text)`

The pattern in `main.py` line 132 is (word boundary), one or more of
`A-Z a-z 0-9 . _ % + -`, an `@`, one or more of `A-Z a-z 0-9 . -`, a literal
dot, two or more of `A-Z | a-z` (the class literally contains `|`), and a
word boundary.  `findAllFrom` scans start positions left to right and
replays Python's greedy backtracking; matches are non-overlapping. -/

/-- `\w` for the `\b` boundaries (ASCII). -/
def isWordChar (c : Char) : Bool := c.isAlphanum || c = '_'

/-- The local-part class `[A-Za-z0-9._%+-]`. -/
def isLocalChar (c : Char) : Bool :=
  c.isAlphanum || c = '.' || c = '_' || c = '%' || c = '+' || c = '-'

/-- The domain class `[A-Za-z0-9.-]`. -/
def isDomainChar (c : Char) : Bool := c.isAlphanum || c = '.' || c = '-'

/-- The top-level class `[A-Z|a-z]` (note the literal `|`). -/
def isTldChar (c : Char) : Bool := c.isAlpha || c = '|'

/-- Character at index `i`, NUL when out of range (NUL is in none of the
classes above, so reads past the end fail every class test). -/
def charAt (cs : List Char) (i : Nat) : Char := cs.getD i (Char.ofNat 0)

/-- Python `\b` at offset `i`: a word char on exactly one side. -/
def boundaryAt (cs : List Char) (i : Nat) : Bool :=
  (if i = 0 then false else isWordChar (charAt cs (i - 1))) != isWordChar (charAt cs i)

/-- End of the maximal run of class-`p` characters starting at `i`. -/
def runEnd (p : Char → Bool) (cs : List Char) : Nat → Nat → Nat
  | 0, i => i
  | fuel + 1, i =>
    if i < cs.length then
      if p (charAt cs i) then runEnd p cs fuel (i + 1) else i
    else i

/-- Backtracking for the tail `[A-Z|a-z]` (two or more) plus `\b`: the
engine first consumes the maximal TLD run and then gives characters back
one at a time until a word boundary holds; at least two must remain. -/
def tldBacktrack (cs : List Char) (lo : Nat) : Nat → Nat → Option Nat
  | 0, _ => none
  | fuel + 1, t =>
    if t < lo then none
    else if boundaryAt cs t then some t
    else tldBacktrack cs lo fuel (t - 1)

/-- Attempt `[A-Z|a-z]` (two or more) followed by `\b` starting at `j`
(the offset just after the literal dot). -/
def tryTld (cs : List Char) (j : Nat) : Option Nat :=
  let e := runEnd isTldChar cs (cs.length + 1) j
  tldBacktrack cs (j + 2) (e + 1) e

/-- Backtracking for `[A-Za-z0-9.-]+\.`: the dot of `\.` sits at an index
`k` with `dstart < k`, the `+` having consumed `[dstart, k)`; since `.` is
itself in the domain class the engine tries `k` from the end of the maximal
domain run downward (longest `+` first, exactly Python's greedy order). -/
def dotBacktrack (cs : List Char) (dstart : Nat) : Nat → Nat → Option Nat
  | 0, _ => none
  | fuel + 1, k =>
    if k ≤ dstart then none
    else if charAt cs k = '.' then
      match tryTld cs (k + 1) with
      | some e => some e
      | none => dotBacktrack cs dstart fuel (k - 1)
    else dotBacktrack cs dstart fuel (k - 1)

/-- Attempt the whole pattern at offset `i` (the caller has checked the
leading `\b`); returns the end offset of the match.  Shortening the greedy
`[A-Za-z0-9._%+-]+` can never expose an `@` (every given-back character is
in the class, and `@` is not), so only the maximal local run is tried. -/
def matchAt (cs : List Char) (i : Nat) : Option Nat :=
  let la := runEnd isLocalChar cs (cs.length + 1) i
  if la = i then none
  else if charAt cs la = '@' then
    let m := runEnd isDomainChar cs (cs.length + 1) (la + 1)
    dotBacktrack cs (la + 1) (m + 1) m
  else none

def extractRange (cs : List Char) (i e : Nat) : String :=
  String.mk ((cs.drop i).take (e - i))

def findAllFrom (cs : List Char) : Nat → Nat → List String
  | 0, _ => []
  | fuel + 1, i =>
    if i < cs.length then
      if boundaryAt cs i then
        match matchAt cs i with
        | some e => extractRange cs i e :: findAllFrom cs fuel e
        | none => findAllFrom cs fuel (i + 1)
      else findAllFrom cs fuel (i + 1)
    else []

/-- Model of `re.findall(email_pattern, page_text)` (`main.py` lines 132-134). -/
def findEmails (text : String) : List String :=
  findAllFrom text.toList (text.toList.length + 1) 0

/-! ### The Email Extractor (`main.py` lines 129-147) -/

/-- A fetched, parsed page: its visible text (`soup.get_text()`) and the
`href` attributes of its anchor elements. -/
structure Page where
  text : String
  hrefs : List String
deriving DecidableEq

/-- `link["href"].replace("mailto:", "").split("?")[0]` (line 139).
Python `str.replace` removes every occurrence, and `split` then `[0]`
keeps the part before the first `?` (`split` never returns an empty
list, so the indexing cannot fail). -/
def mailtoAddress (href : String) : String :=
  (pySplit '?' (pyRemoveAll "mailto:" href)).headD ""

/-- The candidate pool of one page: the regex scan of the visible text,
then the addresses of the `mailto:` anchors (`soup.find_all` with
`re.compile("^mailto:")` keeps the anchors whose href starts with
`mailto:`, lines 137-140). -/
def pageCandidates (page : Page) : List String :=
  findEmails page.text ++
    (page.hrefs.filter (fun h => pyStartsWith "mailto:" h)).map mailtoAddress

/-- `excluded_domains` (line 143). -/
def excluded_domains : List String :=
  ["example.com", "test.com", "gmail.com", "yahoo.com", "hotmail.com"]

/-- The filter loop of lines 144-147.  `email.split("@")[1]` raises
`IndexError` when the candidate has no `@`; the `False` flag models that
exception escaping to the page-level handler, with the additions made so
far kept (the Python `set` object persists).  The set is modelled as a
list extended only when the membership test fails, so insertion order is
tracked but membership is exactly Python's. -/
def filterEmailsLoop : List String → List String → List String × Bool
  | emails, [] => (emails, true)
  | emails, email :: rest =>
    match (pySplit '@' email)[1]? with
    | none => (emails, false)
    | some seg =>
      let domain := pyLower seg
      if ¬ excluded_domains.contains domain ∧ ¬ emails.contains (pyLower email) then
        filterEmailsLoop (pyLower email :: emails) rest
      else
        filterEmailsLoop emails rest

/-- One page's worth of the Email Extractor: candidates of the page pushed
through the filter loop into the accumulating set. -/
def extract_page_emails (emails : List String) (page : Page) :
    List String × Bool :=
  filterEmailsLoop emails (pageCandidates page)

/-- Whether the filter loop of a page runs to completion: every candidate
splits into at least two pieces at `@`. -/
def pageOk (page : Page) : Bool :=
  (pageCandidates page).all (fun e => ((pySplit '@' e)[1]?).isSome)

/-! ### The Contact-Page Crawler (`main.py` lines 99-156) -/

/-- ASCII letter, the `url[0].isascii() and url[0].isalpha()` test of
`urlsplit`'s scheme detection. -/
def isAsciiAlpha (c : Char) : Bool :=
  (65 ≤ c.toNat && c.toNat ≤ 90) || (97 ≤ c.toNat && c.toNat ≤ 122)

/-- ASCII digit. -/
def isAsciiDigit (c : Char) : Bool := 48 ≤ c.toNat && c.toNat ≤ 57

/-- The characters of `urllib.parse.scheme_chars`. -/
def isSchemeChar (c : Char) : Bool :=
  isAsciiAlpha c || isAsciiDigit c || c = '+' || c = '-' || c = '.'

/-- Model of `urlparse`'s scheme split: the text before the first `:`,
when it is nonempty, starts with an ASCII letter and has only scheme
characters, is the scheme (lower-cased by `urlparse`); the remainder
follows the `:`. -/
def schemeSplit (s : String) : String × String :=
  let cs := s.toList
  let pre := cs.takeWhile (fun c => c != ':')
  if pre.length < cs.length ∧ pre ≠ [] ∧ isAsciiAlpha (charAt pre 0) ∧ pre.all isSchemeChar then
    (pyLower (String.mk pre), String.mk (cs.drop (pre.length + 1)))
  else ("", s)

def urlScheme (s : String) : String := (schemeSplit s).1

/-- Model of `urlparse`'s netloc: after the scheme, text led by `//` up to
the first `/`, `?` or `#`. -/
def urlNetloc (s : String) : String :=
  let rest := (schemeSplit s).2.toList
  if rest.take 2 = ['/', '/'] then
    String.mk ((rest.drop 2).takeWhile
      (fun c => !(c == '/' || c == '?' || c == '#')))
  else ""

/-- `urllib.parse.uses_relative`: the schemes for which `urljoin`
resolves a relative reference against the base (any other scheme makes
`urljoin` return the reference unchanged). -/
def uses_relative : List String :=
  ["", "ftp", "http", "gopher", "nntp", "imap", "wais", "file", "https",
   "shttp", "mms", "prospero", "rtsp", "rtsps", "rtspu", "sftp", "svn",
   "svn+ssh", "ws", "wss"]

/-- Model of `urljoin(base, path)` for a rootless absolute `path` with no
`.`/`..` segments — the only shape the crawler passes.  The base is
re-parsed; a scheme outside `uses_relative` returns the bare path;
otherwise `urlunparse` reassembles `scheme : // netloc path`, where the
`//` appears whenever the (non-empty, hence `uses_netloc`) scheme does,
even for an empty netloc, and for the empty scheme only with a
non-empty netloc. -/
def urljoinAbs (base path : String) : String :=
  let bscheme := urlScheme base
  let bnetloc := urlNetloc base
  if uses_relative.contains bscheme then
    if bscheme = "" then
      if bnetloc = "" then path else "//" ++ bnetloc ++ path
    else bscheme ++ "://" ++ bnetloc ++ path
  else path

/-- Sufficient conditions under which the parsing and joining model
provably matches `urllib.parse` on this crawler's inputs: a non-empty
scheme in `uses_relative` (so `urljoin` concatenates onto the
scheme+netloc base), and none of the characters `urlsplit` strips before
parsing (tab, CR, LF) or that can make it raise (square brackets). -/
def wellFormedUrl (s : String) : Bool :=
  (urlScheme s != "") && uses_relative.contains (urlScheme s) &&
    s.toList.all (fun c =>
      !(c == '\t' || c == '\r' || c == '\n' || c == '[' || c == ']'))

/-- `base_url = f"(scheme)://(netloc)"` (line 110): original path and
query are dropped. -/
def urlBase (s : String) : String := urlScheme s ++ "://" ++ urlNetloc s

/-- `pages_to_check` (lines 107-117): the site URL itself, then the four
well-known paths joined onto the scheme+host base with `urljoin`. -/
def candidatePages (websiteUrl : String) : List String :=
  let base := urlBase websiteUrl
  [websiteUrl,
   urljoinAbs base "/contact",
   urljoinAbs base "/contact-us",
   urljoinAbs base "/about",
   urljoinAbs base "/about-us"]

/-- Observable actions of the crawler: an HTTP GET of a page and a
`time.sleep` of a number of seconds. -/
inductive Event where
  | get : String → Event
  | sleep : Nat → Event
deriving DecidableEq

/-- The crawl loop (lines 119-154) over the already-truncated candidate
list.  `world` maps a URL to its fetched, parsed page, `none` standing
for any exception out of the GET / status check / parse (caught by the
`except` which logs and continues).  On a fully processed page
`pages_checked` is incremented and `time.sleep(1)` runs; when the filter
loop raises (`IndexError` on an `@`-less candidate) the `except` again
catches, so neither happens, but additions made to the set before the
raise are kept. -/
def crawlPages (world : String → Option Page) (maxPages : Nat) :
    List String → Nat → List String → List String × List Event
  | [], _, emails => (emails, [])
  | pageUrl :: rest, pagesChecked, emails =>
    if pagesChecked ≥ maxPages then (emails, [])
    else
      match world pageUrl with
      | none =>
        let r := crawlPages world maxPages rest pagesChecked emails
        (r.1, Event.get pageUrl :: r.2)
      | some page =>
        let pe := extract_page_emails emails page
        if pe.2 then
          let r := crawlPages world maxPages rest (pagesChecked + 1) pe.1
          (r.1, Event.get pageUrl :: Event.sleep 1 :: r.2)
        else
          let r := crawlPages world maxPages rest pagesChecked pe.1
          (r.1, Event.get pageUrl :: r.2)

/-- `extract_emails_from_website` (lines 99-156): empty/absent URL (the
record's website is `""` when missing) returns at once; otherwise the
first `max_pages` candidates are crawled.  Returns the final email set
and the trace of GETs and sleeps. -/
def extract_emails_from_website (world : String → Option Page)
    (websiteUrl : String) (maxPages : Nat) : List String × List Event :=
  if websiteUrl = "" then ([], [])
  else crawlPages world maxPages ((candidatePages websiteUrl).take maxPages) 0 []

/-! ### Place Detail Fetcher and Business Search Orchestrator
(`main.py` lines 25-97) -/

/-- A business record as built by `get_place_details` (lines 86-93). -/
structure Business where
  name : String
  address : String
  phone : String
  website : String
  business_types : String
  emails : List String
deriving DecidableEq

/-- The places-details response: `none` at the call site models a
`requests.RequestException`; `status_ok` is `data["status"] == "OK"`;
the field options model keys missing from `data["result"]`. -/
structure DetailsResponse where
  status_ok : Bool
  name : Option String
  formatted_address : Option String
  formatted_phone_number : Option String
  website : Option String
  types : Option (List String)
deriving DecidableEq

/-- `get_place_details` (lines 68-97): transport failure or non-OK status
gives `None`; otherwise missing fields default to `""` (`[]` for types),
the types list is comma-joined, and the email list starts empty. -/
def get_place_details (dw : String → Option DetailsResponse)
    (placeId : String) : Option Business :=
  match dw placeId with
  | none => none
  | some r =>
    if r.status_ok then
      some { name := r.name.getD ""
             address := r.formatted_address.getD ""
             phone := r.formatted_phone_number.getD ""
             website := r.website.getD ""
             business_types := String.intercalate ", " (r.types.getD [])
             emails := [] }
    else none

/-- The text-search response: `status_ok` is `data["status"] == "OK"`,
`results` the place ids of `data.get("results", [])` in API order. -/
structure SearchResponse where
  status_ok : Bool
  results : List String
deriving DecidableEq

/-- The result loop of `search_businesses` (lines 52-61): stop before
fetching once `max_results` records are accumulated; a `None` detail
result is skipped.  Also returns the place ids actually fetched, in
order (the `time.sleep(0.1)` between fetches has no observable other
than time and is not traced). -/
def searchLoop (dw : String → Option DetailsResponse) (maxResults : Nat) :
    List String → List Business → List Business × List String
  | [], businesses => (businesses, [])
  | placeId :: rest, businesses =>
    if businesses.length ≥ maxResults then (businesses, [])
    else
      let businesses' :=
        match get_place_details dw placeId with
        | some info => businesses ++ [info]
        | none => businesses
      let r := searchLoop dw maxResults rest businesses'
      (r.1, placeId :: r.2)

/-- `search_businesses` (lines 25-66): transport failure or a non-OK
status returns the businesses collected so far, which at that point is
the empty list. -/
def search_businesses (sw : Option SearchResponse)
    (dw : String → Option DetailsResponse) (maxResults : Nat) :
    List Business × List String :=
  match sw with
  | none => ([], [])
  | some resp =>
    if resp.status_ok then searchLoop dw maxResults resp.results []
    else ([], [])

/-! ### Scrape Coordinator (`main.py` lines 158-184) -/

/-- Python `//` on naturals, raising `ZeroDivisionError` on a zero
divisor. -/
def pyDiv (a b : Nat) : Except String Nat :=
  if b = 0 then Except.error "ZeroDivisionError" else Except.ok (a / b)

/-- The per-business body of the coordinator loop (lines 168-179): a
record with a non-empty website gets its `emails` field assigned from the
crawler (called with the default `max_pages=3`); otherwise the record is
left as produced by the detail fetch. -/
def processBusiness (cw : String → Option Page) (business : Business) :
    Business :=
  if business.website ≠ "" then
    { business with emails := (extract_emails_from_website cw business.website 3).1 }
  else business

/-- The per-type loop of `scrape_business_contacts` (lines 164-182).
`max_results // len(business_types)` is evaluated inside the loop, so an
empty type list never divides.  Returns the accumulated records and, for
the claims about the split, the `(query, max_results)` pairs passed to
`search_businesses`.  (`time.sleep(2)` per business is untraced.) -/
def scrapeLoop (sw : String → Option SearchResponse)
    (dw : String → Option DetailsResponse) (cw : String → Option Page)
    (numTypes maxResults : Nat) :
    List String → List Business → List (String × Nat) →
    Except String (List Business × List (String × Nat))
  | [], acc, reqs => Except.ok (acc, reqs)
  | btype :: rest, acc, reqs =>
    match pyDiv maxResults numTypes with
    | Except.error e => Except.error e
    | Except.ok share =>
      let found := (search_businesses (sw btype) dw share).1
      let processed := found.map (processBusiness cw)
      scrapeLoop sw dw cw numTypes maxResults rest (acc ++ processed)
        (reqs ++ [(btype, share)])

/-- `scrape_business_contacts` (lines 158-184). -/
def scrape_business_contacts (sw : String → Option SearchResponse)
    (dw : String → Option DetailsResponse) (cw : String → Option Page)
    (business_types : List String) (maxResults : Nat) :
    Except String (List Business × List (String × Nat)) :=
  scrapeLoop sw dw cw business_types.length maxResults business_types [] []

/-! ### Reporter (`main.py` lines 186-234) -/

/-- One CSV row (lines 191-199). -/
structure Row where
  name : String
  address : String
  phone : String
  website : String
  business_types : String
  emails : String
  email_count : Nat
deriving DecidableEq

/-- The row built for one record: `business.copy()` is taken, then the
two derived cells are set on the copy, the original record untouched. -/
def rowOf (business : Business) : Row :=
  let business_copy := business
  { name := business_copy.name
    address := business_copy.address
    phone := business_copy.phone
    website := business_copy.website
    business_types := business_copy.business_types
    emails := String.intercalate "; " business.emails
    email_count := business.emails.length }

/-- `save_to_csv` (lines 186-201): the written rows, together with the
record list as it stands after the loop (each iteration only reads the
record and mutates its private copy). -/
def save_to_csv (businesses : List Business) : List Row × List Business :=
  (businesses.map rowOf, businesses)

/-- `total_emails` of the summary (line 227). -/
def total_emails (businesses : List Business) : Nat :=
  (businesses.map (fun b => b.emails.length)).sum

/-- The average-emails metric of line 234: the conditional expression
prints `0.0` for an empty list and only evaluates
`total_emails/len(businesses)` when the list is non-empty.  The division
is modelled exactly, over `ℚ`. -/
def averageEmails (businesses : List Business) : ℚ :=
  if businesses = [] then 0
  else (total_emails businesses : ℚ) / (businesses.length : ℚ)

/-! ### Lemmas about the string models -/

theorem pySplitAux_headD (sep : Char) (cs acc : List Char) :
    (pySplitAux sep cs acc).headD "" =
      String.mk (acc.reverse ++ cs.takeWhile (fun c => c != sep)) := by
  induction cs generalizing acc with
  | nil => simp [pySplitAux]
  | cons c rest ih =>
    by_cases hc : c = sep
    · subst hc
      simp [pySplitAux, List.takeWhile]
    · rw [pySplitAux, if_neg hc, ih (c :: acc)]
      have hb : (c != sep) = true := by simpa using hc
      simp [List.takeWhile, hb, List.append_assoc]

theorem pySplit_headD (sep : Char) (s : String) :
    (pySplit sep s).headD "" = String.mk (s.toList.takeWhile (fun c => c != sep)) := by
  simpa using pySplitAux_headD sep s.toList []

theorem pySplitAux_map_pyLower (cs acc : List Char) :
    pySplitAux '@' (cs.map pyLowerChar) (acc.map pyLowerChar) =
      (pySplitAux '@' cs acc).map pyLower := by
  induction cs generalizing acc with
  | nil => simp [pySplitAux, pyLower, List.map_reverse]
  | cons c rest ih =>
    by_cases hc : c = '@'
    · subst hc
      have h1 : pyLowerChar '@' = '@' := rfl
      have h0 : pySplitAux '@' (rest.map pyLowerChar) ([].map pyLowerChar) =
          (pySplitAux '@' rest []).map pyLower := ih []
      simp only [List.map_cons, pySplitAux, h1, if_pos rfl]
      simp only [List.map] at h0
      rw [h0]
      simp [pyLower, List.map_reverse]
    · have hc' : ¬ pyLowerChar c = '@' := fun h => hc ((pyLowerChar_eq_at c).1 h)
      simp only [List.map_cons, pySplitAux, if_neg hc, if_neg hc']
      exact ih (c :: acc)

theorem pySplit_pyLower (s : String) :
    pySplit '@' (pyLower s) = (pySplit '@' s).map pyLower := by
  have h := pySplitAux_map_pyLower s.toList []
  simpa [pySplit, pyLower] using h

theorem takeWhile_length_lt {cs : List Char} (h : '?' ∈ cs) :
    (cs.takeWhile (fun c => c != '?')).length < cs.length := by
  induction cs with
  | nil => cases h
  | cons c rest ih =>
    by_cases hc : c = '?'
    · subst hc
      simp [List.takeWhile]
    · have hb : (c != '?') = true := by simpa using hc
      have hr : '?' ∈ rest := by
        cases h with
        | head => exact absurd rfl hc
        | tail _ h => exact h
      simp only [List.takeWhile, hb, List.length_cons]
      exact Nat.succ_lt_succ (ih hr)

/-! ### C1: what the Email Extractor can return -/

/-- The invariant of the accumulating email set: no duplicates, every
element fixed by lower-casing, and every element was admitted by the
filter: its `split("@")[1]` segment exists and is not an excluded
domain. -/
def EmailSetInv (emails : List String) : Prop :=
  emails.Nodup ∧
    ∀ e ∈ emails, pyLower e = e ∧
      ∃ d, (pySplit '@' e)[1]? = some d ∧
        excluded_domains.contains d = false

theorem filterEmailsLoop_inv (cands : List String) :
    ∀ emails : List String, EmailSetInv emails →
      EmailSetInv (filterEmailsLoop emails cands).1 := by
  induction cands with
  | nil => intro emails h; exact h
  | cons email rest ih =>
    intro emails h
    rw [filterEmailsLoop]
    cases hseg : (pySplit '@' email)[1]? with
    | none => exact h
    | some seg =>
      dsimp only
      by_cases hcond : ¬ excluded_domains.contains (pyLower seg) = true ∧
          ¬ emails.contains (pyLower email) = true
      · rw [if_pos hcond]
        apply ih
        constructor
        · refine List.nodup_cons.2 ⟨?_, h.1⟩
          intro hmem
          exact hcond.2 (List.elem_iff.2 hmem)
        · intro e he
          rcases List.mem_cons.1 he with he | he
          · subst he
            refine ⟨pyLower_idem email, pyLower seg, ?_, ?_⟩
            · rw [pySplit_pyLower, List.getElem?_map, hseg]
              rfl
            · have h1 := hcond.1
              simpa using h1
          · exact h.2 e he
      · rw [if_neg hcond]
        exact ih emails h

theorem crawlPages_inv (world : String → Option Page) (maxPages : Nat) :
    ∀ (pages : List String) (checked : Nat) (emails : List String),
      EmailSetInv emails →
      EmailSetInv (crawlPages world maxPages pages checked emails).1 := by
  intro pages
  induction pages with
  | nil => intro checked emails h; exact h
  | cons pageUrl rest ih =>
    intro checked emails h
    rw [crawlPages]
    by_cases hstop : checked ≥ maxPages
    · rw [if_pos hstop]; exact h
    · rw [if_neg hstop]
      match world pageUrl with
      | none => exact ih checked emails h
      | some page =>
        have hp : EmailSetInv (extract_page_emails emails page).1 :=
          filterEmailsLoop_inv (pageCandidates page) emails h
        by_cases hok : (extract_page_emails emails page).2 = true
        · simp only [hok, if_pos]
          exact ih (checked + 1) _ hp
        · simp only [Bool.not_eq_true] at hok
          simp only [hok, Bool.false_eq_true, if_neg, if_false]
          exact ih checked _ hp

/-- C1 (amended): every address the crawler returns is fixed by
lower-casing, the list has no duplicates (hence no two entries equal up
to case), and the segment after the *first* `@` — the `split("@")[1]`
the code checks — is never an excluded domain. -/
theorem extractor_filter_invariant (world : String → Option Page)
    (websiteUrl : String) (maxPages : Nat) :
    EmailSetInv (extract_emails_from_website world websiteUrl maxPages).1 ∧
      ∀ x ∈ (extract_emails_from_website world websiteUrl maxPages).1,
        ∀ y ∈ (extract_emails_from_website world websiteUrl maxPages).1,
          pyLower x = pyLower y → x = y := by
  have hinv : EmailSetInv (extract_emails_from_website world websiteUrl maxPages).1 := by
    rw [extract_emails_from_website]
    by_cases h0 : websiteUrl = ""
    · rw [if_pos h0]
      exact ⟨List.nodup_nil, by intro e he; cases he⟩
    · rw [if_neg h0]
      exact crawlPages_inv world maxPages _ 0 []
        ⟨List.nodup_nil, by intro e he; cases he⟩
  refine ⟨hinv, ?_⟩
  intro x hx y hy hxy
  have hxl := (hinv.2 x hx).1
  have hyl := (hinv.2 y hy).1
  rw [← hxl, ← hyl, hxy]

/-- A world with one reachable page whose only address comes from a
`mailto:` link with two `@` signs. -/
def cworldMailto : String → Option Page :=
  fun u => if u = "http://x.com" then
    some { text := "", hrefs := ["mailto:a@b@gmail.com"] } else none

/-- The substring after the last `@`, the domain in the claim's sense. -/
def lastDomain (email : String) : String := (pySplit '@' email).getLastD ""

/-- C1 (counterexample): the crawler returns `a@b@gmail.com`, whose
domain after the last `@` is `gmail.com`, an excluded domain — the code
checks `split("@")[1]`, here `b`, instead. -/
theorem extractor_excluded_domain_counterexample :
    (extract_emails_from_website cworldMailto "http://x.com" 3).1 = ["a@b@gmail.com"] ∧
      lastDomain "a@b@gmail.com" = "gmail.com" ∧
      excluded_domains.contains (pyLower "gmail.com") = true := by
  refine ⟨?_, rfl, rfl⟩
  rfl

/-- Witness for the amended C1 at a concrete world: evaluating the
crawler there gives a singleton list, and the invariant theorem applies. -/
theorem extractor_filter_invariant_witness :
    (extract_emails_from_website cworldMailto "http://x.com" 3).1.Nodup := by
  exact (extractor_filter_invariant cworldMailto "http://x.com" 3).1.1

/-! ### The crawler's trace: C2, C3, C7 -/

/-- The events one candidate page contributes: always its GET; the
1-second sleep only when the page was fetched, parsed and filtered
without an exception. -/
def blockOf (world : String → Option Page) (url : String) : List Event :=
  match world url with
  | none => [Event.get url]
  | some page =>
    if pageOk page then [Event.get url, Event.sleep 1] else [Event.get url]

/-- How one candidate page transforms the accumulated email set. -/
def stepEmails (world : String → Option Page) (emails : List String)
    (url : String) : List String :=
  match world url with
  | none => emails
  | some page => (extract_page_emails emails page).1

/-- The URLs of the GET events of a trace, in order. -/
def getsOf (trace : List Event) : List String :=
  trace.filterMap (fun e => match e with
    | Event.get u => some u
    | Event.sleep _ => none)

/-- Does every GET of the trace have a 1-second sleep right after it?
(The delay regime the claim asserts.) -/
def delaysOk : List Event → Bool
  | [] => true
  | Event.sleep _ :: rest => delaysOk rest
  | Event.get _ :: Event.sleep 1 :: rest => delaysOk rest
  | Event.get _ :: _ => false

theorem filterEmailsLoop_flag (cands : List String) : ∀ emails : List String,
    (filterEmailsLoop emails cands).2 =
      cands.all (fun e => ((pySplit '@' e)[1]?).isSome) := by
  induction cands with
  | nil => intro emails; rfl
  | cons email rest ih =>
    intro emails
    rw [filterEmailsLoop]
    cases hseg : (pySplit '@' email)[1]? with
    | none => simp [List.all_cons, hseg]
    | some seg =>
      dsimp only
      by_cases hcond : ¬ excluded_domains.contains (pyLower seg) = true ∧
          ¬ emails.contains (pyLower email) = true
      · rw [if_pos hcond, ih]
        simp [List.all_cons, hseg]
      · rw [if_neg hcond, ih]
        simp [List.all_cons, hseg]

theorem extract_page_flag (emails : List String) (page : Page) :
    (extract_page_emails emails page).2 = pageOk page :=
  filterEmailsLoop_flag (pageCandidates page) emails

/-- The crawl loop, on a candidate list short enough that the redundant
`pages_checked >= max_pages` break can never fire (true of the
`[:max_pages]` slice it is always given), is a fold for the emails and a
per-page block concatenation for the trace. -/
theorem crawlPages_eq (world : String → Option Page) (maxPages : Nat) :
    ∀ (pages : List String) (checked : Nat) (emails : List String),
      checked + pages.length ≤ maxPages →
      crawlPages world maxPages pages checked emails =
        (pages.foldl (stepEmails world) emails,
         (pages.map (blockOf world)).flatten) := by
  intro pages
  induction pages with
  | nil => intro checked emails _; rfl
  | cons url rest ih =>
    intro checked emails h
    have hlen : checked + (1 + rest.length) ≤ maxPages := by
      simpa [Nat.add_comm] using h
    have hlt : ¬ checked ≥ maxPages := by omega
    rw [crawlPages, if_neg hlt]
    cases hw : world url with
    | none =>
      rw [ih checked emails (by omega)]
      simp [stepEmails, hw, blockOf]
    | some page =>
      dsimp only
      rw [extract_page_flag emails page]
      by_cases hok : pageOk page = true
      · rw [if_pos hok, ih (checked + 1) _ (by omega)]
        simp [stepEmails, hw, blockOf, hok]
      · rw [if_neg hok, ih checked _ (by omega)]
        simp only [Bool.not_eq_true] at hok
        simp [stepEmails, hw, blockOf, hok]

theorem getsOf_append (t₁ t₂ : List Event) :
    getsOf (t₁ ++ t₂) = getsOf t₁ ++ getsOf t₂ :=
  List.filterMap_append t₁ t₂ _

theorem getsOf_blocks (world : String → Option Page) :
    ∀ pages : List String,
      getsOf ((pages.map (blockOf world)).flatten) = pages := by
  intro pages
  induction pages with
  | nil => rfl
  | cons url rest ih =>
    have hb : getsOf (blockOf world url) = [url] := by
      rw [blockOf]
      cases world url with
      | none => rfl
      | some page =>
        dsimp only
        by_cases hok : pageOk page = true
        · rw [if_pos hok]; rfl
        · rw [if_neg hok]; rfl
    simp only [List.map_cons, List.flatten_cons, getsOf_append, hb, ih,
      List.singleton_append]

/-- A crawl of the empty-string URL is `([], [])` by definition;
this lemma gives the shape for a non-empty URL. -/
theorem extract_emails_trace (world : String → Option Page)
    (websiteUrl : String) (maxPages : Nat) (h : websiteUrl ≠ "") :
    extract_emails_from_website world websiteUrl maxPages =
      (((candidatePages websiteUrl).take maxPages).foldl (stepEmails world) [],
       ((((candidatePages websiteUrl).take maxPages).map (blockOf world))).flatten) := by
  rw [extract_emails_from_website, if_neg h]
  exact crawlPages_eq world maxPages _ 0 []
    (by simp [Nat.min_le_left])

/-- C2 as stated is false: with every candidate page unreachable the
crawler's trace is three GETs and no sleep at all — the `time.sleep(1)`
sits inside the `try`, so a failed attempt inserts no delay. -/
def cworldFail : String → Option Page := fun _ => none

theorem crawler_delay_counterexample :
    (extract_emails_from_website cworldFail "http://a.com" 3).2 =
      [Event.get "http://a.com", Event.get "http://a.com/contact",
       Event.get "http://a.com/contact-us"] ∧
    delaysOk (extract_emails_from_website cworldFail "http://a.com" 3).2 = false := by
  exact ⟨rfl, rfl⟩

/-- C2 (amended): the 1-second delay follows each successfully processed
candidate page; a page whose fetch/parse/filter fails contributes only
its GET, with no delay before the next candidate. -/
theorem crawler_sleep_after_success_only (world : String → Option Page)
    (url : String) (maxPages : Nat) (h : url ≠ "") :
    (extract_emails_from_website world url maxPages).2 =
      (((candidatePages url).take maxPages).map (blockOf world)).flatten := by
  rw [extract_emails_trace world url maxPages h]

/-- A world where only the root page is reachable. -/
def cworldMixed : String → Option Page :=
  fun u => if u = "http://a.com" then
    some { text := "write to info@a.org", hrefs := [] } else none

theorem crawler_sleep_after_success_only_witness :
    (extract_emails_from_website cworldMixed "http://a.com" 3).2 =
      (((candidatePages "http://a.com").take 3).map (blockOf cworldMixed)).flatten :=
  crawler_sleep_after_success_only cworldMixed "http://a.com" 3 (by decide)

/-! ### Faithfulness of the urljoin model on well-formed URLs

On a URL accepted by `wellFormedUrl` the scheme+netloc base re-parses to
the same scheme and netloc, so `urljoin` of the base with an absolute
path concatenates — as `urllib.parse` does for `uses_relative` schemes. -/

theorem pyLowerChar_eq_symbol (c t : Char)
    (h1 : ¬ (65 ≤ t.toNat ∧ t.toNat ≤ 90))
    (h2 : ¬ (97 ≤ t.toNat ∧ t.toNat ≤ 122)) :
    pyLowerChar c = t ↔ c = t := by
  constructor
  · intro h
    by_cases hc : 65 ≤ c.toNat ∧ c.toNat ≤ 90
    · exfalso
      have ht := pyLowerChar_toNat_lower c hc
      rw [h] at ht
      omega
    · rwa [pyLowerChar, if_neg hc] at h
  · intro h
    subst h
    rw [pyLowerChar, if_neg h1]

theorem isAsciiAlpha_pyLowerChar (c : Char) (h : isAsciiAlpha c = true) :
    isAsciiAlpha (pyLowerChar c) = true := by
  by_cases hc : 65 ≤ c.toNat ∧ c.toNat ≤ 90
  · have ht := pyLowerChar_toNat_lower c hc
    simp [isAsciiAlpha]
    omega
  · rwa [pyLowerChar, if_neg hc]

theorem isSchemeChar_pyLowerChar (c : Char) (h : isSchemeChar c = true) :
    isSchemeChar (pyLowerChar c) = true := by
  by_cases hc : 65 ≤ c.toNat ∧ c.toNat ≤ 90
  · have halpha : isAsciiAlpha (pyLowerChar c) = true := by
      have ht := pyLowerChar_toNat_lower c hc
      simp [isAsciiAlpha]
      omega
    simp [isSchemeChar, halpha]
  · rwa [pyLowerChar, if_neg hc]

theorem schemeChar_ne_colon (c : Char) (h : isSchemeChar c = true) :
    (c != ':') = true := by
  have hne : c ≠ ':' := by
    intro he
    subst he
    exact absurd h (by decide)
  simpa using hne

theorem takeWhile_append_stop {α : Type} (p : α → Bool) (c : α) (l₂ : List α) :
    ∀ l₁ : List α, l₁.all p = true → p c = false →
      (l₁ ++ c :: l₂).takeWhile p = l₁ := by
  intro l₁
  induction l₁ with
  | nil =>
    intro _ hc
    simp [List.takeWhile_cons, hc]
  | cons a rest ih =>
    intro h hc
    rw [List.all_cons, Bool.and_eq_true] at h
    simp [List.takeWhile_cons, h.1, ih h.2 hc]

theorem takeWhile_eq_of_all {α : Type} (p : α → Bool) :
    ∀ l : List α, l.all p = true → l.takeWhile p = l := by
  intro l
  induction l with
  | nil => intro _; rfl
  | cons a rest ih =>
    intro h
    rw [List.all_cons, Bool.and_eq_true] at h
    simp [List.takeWhile_cons, h.1, ih h.2]

theorem all_takeWhile_self {α : Type} (p : α → Bool) :
    ∀ l : List α, (l.takeWhile p).all p = true := by
  intro l
  induction l with
  | nil => rfl
  | cons a rest ih =>
    by_cases ha : p a = true
    · simp [List.takeWhile_cons, ha, ih]
    · have ha' : p a = false := by simpa using ha
      simp [List.takeWhile_cons, ha']

theorem drop_append_cons {α : Type} (l₁ : List α) (c : α) (l₂ : List α) :
    (l₁ ++ c :: l₂).drop (l₁.length + 1) = l₂ := by
  have h : l₁ ++ c :: l₂ = (l₁ ++ [c]) ++ l₂ := by simp
  have hl : l₁.length + 1 = (l₁ ++ [c]).length := by simp
  rw [h, hl, List.drop_left]

theorem toList_append (s t : String) : (s ++ t).toList = s.toList ++ t.toList := rfl

theorem string_eq_of_toList {s t : String} (h : s.toList = t.toList) : s = t :=
  congrArg String.mk h

/-- A parsed scheme is either empty or: non-empty, already lower-cased,
made of scheme characters, led by an ASCII letter. -/
theorem urlScheme_cases (s : String) :
    urlScheme s = "" ∨
    ((urlScheme s).toList ≠ [] ∧
     (urlScheme s).toList.map pyLowerChar = (urlScheme s).toList ∧
     (urlScheme s).toList.all isSchemeChar = true ∧
     isAsciiAlpha (charAt (urlScheme s).toList 0) = true) := by
  rw [urlScheme, schemeSplit]
  by_cases hC : (s.toList.takeWhile (fun c => c != ':')).length < s.toList.length ∧
      s.toList.takeWhile (fun c => c != ':') ≠ [] ∧
      isAsciiAlpha (charAt (s.toList.takeWhile (fun c => c != ':')) 0) = true ∧
      (s.toList.takeWhile (fun c => c != ':')).all isSchemeChar = true
  · rw [if_pos hC]
    obtain ⟨-, hne, halpha, hall⟩ := hC
    right
    refine ⟨?_, ?_, ?_, ?_⟩
    · show (s.toList.takeWhile (fun c => c != ':')).map pyLowerChar ≠ []
      intro hmap
      exact hne (by simpa using hmap)
    · show ((s.toList.takeWhile (fun c => c != ':')).map pyLowerChar).map pyLowerChar =
        (s.toList.takeWhile (fun c => c != ':')).map pyLowerChar
      rw [List.map_map, pyLowerChar_comp_idem]
    · show ((s.toList.takeWhile (fun c => c != ':')).map pyLowerChar).all isSchemeChar = true
      rw [List.all_map, List.all_eq_true]
      rw [List.all_eq_true] at hall
      intro c hc
      exact isSchemeChar_pyLowerChar c (hall c hc)
    · cases hpre : s.toList.takeWhile (fun c => c != ':') with
      | nil => exact absurd hpre hne
      | cons a r =>
        rw [hpre] at halpha
        show isAsciiAlpha (charAt ((a :: r).map pyLowerChar) 0) = true
        have ha : charAt (a :: r) 0 = a := rfl
        rw [ha] at halpha
        exact isAsciiAlpha_pyLowerChar a halpha
  · rw [if_neg hC]
    left
    rfl

theorem schemeSplit_base (scheme netloc : String)
    (hne : scheme.toList ≠ [])
    (hmap : scheme.toList.map pyLowerChar = scheme.toList)
    (hall : scheme.toList.all isSchemeChar = true)
    (halpha : isAsciiAlpha (charAt scheme.toList 0) = true) :
    schemeSplit (scheme ++ "://" ++ netloc) =
      (scheme, String.mk ('/' :: '/' :: netloc.toList)) := by
  have hcolon : scheme.toList.all (fun c => c != ':') = true := by
    rw [List.all_eq_true] at hall ⊢
    intro c hc
    exact schemeChar_ne_colon c (hall c hc)
  have h0 : ("://" : String).toList = [':', '/', '/'] := rfl
  have hlist : (scheme ++ "://" ++ netloc).toList =
      scheme.toList ++ ':' :: '/' :: '/' :: netloc.toList := by
    simp [toList_append, h0]
  rw [schemeSplit]
  rw [hlist]
  rw [takeWhile_append_stop _ ':' _ scheme.toList hcolon (by decide)]
  have hcond : scheme.toList.length <
        (scheme.toList ++ ':' :: '/' :: '/' :: netloc.toList).length ∧
      scheme.toList ≠ [] ∧
      isAsciiAlpha (charAt scheme.toList 0) = true ∧
      scheme.toList.all isSchemeChar = true := by
    refine ⟨?_, hne, halpha, hall⟩
    simp only [List.length_append, List.length_cons]
    omega
  rw [if_pos hcond, drop_append_cons]
  have hplow : pyLower (String.mk scheme.toList) = scheme := by
    apply string_eq_of_toList
    simpa [pyLower] using hmap
  rw [hplow]

theorem urlScheme_base (scheme netloc : String)
    (hne : scheme.toList ≠ [])
    (hmap : scheme.toList.map pyLowerChar = scheme.toList)
    (hall : scheme.toList.all isSchemeChar = true)
    (halpha : isAsciiAlpha (charAt scheme.toList 0) = true) :
    urlScheme (scheme ++ "://" ++ netloc) = scheme := by
  rw [urlScheme, schemeSplit_base scheme netloc hne hmap hall halpha]

theorem urlNetloc_base (scheme netloc : String)
    (hne : scheme.toList ≠ [])
    (hmap : scheme.toList.map pyLowerChar = scheme.toList)
    (hall : scheme.toList.all isSchemeChar = true)
    (halpha : isAsciiAlpha (charAt scheme.toList 0) = true)
    (hpred : netloc.toList.all (fun c => !(c == '/' || c == '?' || c == '#')) = true) :
    urlNetloc (scheme ++ "://" ++ netloc) = netloc := by
  rw [urlNetloc]
  rw [schemeSplit_base scheme netloc hne hmap hall halpha]
  have ht : (String.mk ('/' :: '/' :: netloc.toList)).toList =
      '/' :: '/' :: netloc.toList := rfl
  rw [ht, if_pos (show List.take 2 ('/' :: '/' :: netloc.toList) = ['/', '/'] from rfl)]
  show String.mk (netloc.toList.takeWhile (fun c => !(c == '/' || c == '?' || c == '#'))) = netloc
  rw [takeWhile_eq_of_all _ _ hpred]
  exact string_eq_of_toList rfl

/-- Whatever the URL, the parsed netloc has no `/`, `?` or `#`. -/
theorem urlNetloc_all (s : String) :
    (urlNetloc s).toList.all (fun c => !(c == '/' || c == '?' || c == '#')) = true := by
  rw [urlNetloc]
  by_cases ht : (schemeSplit s).2.toList.take 2 = ['/', '/']
  · rw [if_pos ht]
    exact all_takeWhile_self _ _
  · rw [if_neg ht]
    rfl

/-- On a well-formed URL, joining an absolute path onto the derived base
is concatenation, exactly what `urljoin` computes there. -/
theorem urljoinAbs_concat (s p : String) (h : wellFormedUrl s = true) :
    urljoinAbs (urlBase s) p = urlBase s ++ p := by
  rw [wellFormedUrl] at h
  simp only [Bool.and_eq_true, bne_iff_ne, ne_eq] at h
  obtain ⟨⟨hsch, hrel⟩, -⟩ := h
  rcases urlScheme_cases s with hcase | ⟨hne, hmap, hall, halpha⟩
  · exact absurd hcase hsch
  · have hnl := urlNetloc_all s
    have hbs : urlScheme (urlBase s) = urlScheme s := by
      rw [urlBase]
      exact urlScheme_base _ _ hne hmap hall halpha
    have hbn : urlNetloc (urlBase s) = urlNetloc s := by
      rw [urlBase]
      exact urlNetloc_base _ _ hne hmap hall halpha hnl
    rw [urljoinAbs]
    rw [hbs, hbn, if_pos hrel, if_neg hsch, urlBase]

/-- C3: at most `max_pages` GETs are ever issued; and for a URL of the
`scheme://host` shape the attempted candidates are exactly the first
`max_pages` of the fixed candidate list, which is the site URL followed
by the four well-known paths on the scheme+host base. -/
theorem crawler_request_bound_and_order (world : String → Option Page)
    (url : String) (maxPages : Nat) :
    (getsOf (extract_emails_from_website world url maxPages).2).length ≤ maxPages ∧
    (wellFormedUrl url = true →
      getsOf (extract_emails_from_website world url maxPages).2 =
        (candidatePages url).take maxPages ∧
      candidatePages url =
        [url, urlBase url ++ "/contact", urlBase url ++ "/contact-us",
         urlBase url ++ "/about", urlBase url ++ "/about-us"]) := by
  by_cases h0 : url = ""
  · subst h0
    rw [extract_emails_from_website, if_pos rfl]
    refine ⟨by simp [getsOf], ?_⟩
    intro h
    exact absurd h (by decide)
  · have htr := extract_emails_trace world url maxPages h0
    have hget : getsOf (extract_emails_from_website world url maxPages).2 =
        (candidatePages url).take maxPages := by
      rw [htr]
      exact getsOf_blocks world _
    refine ⟨?_, fun hw => ⟨hget, ?_⟩⟩
    · rw [hget]
      simp [Nat.min_le_left]
    · rw [candidatePages]
      rw [urljoinAbs_concat url "/contact" hw,
          urljoinAbs_concat url "/contact-us" hw,
          urljoinAbs_concat url "/about" hw,
          urljoinAbs_concat url "/about-us" hw]

theorem crawler_request_bound_and_order_witness :
    (getsOf (extract_emails_from_website cworldFail "http://a.com" 3).2).length ≤ 3 ∧
    getsOf (extract_emails_from_website cworldFail "http://a.com" 3).2 =
      (candidatePages "http://a.com").take 3 ∧
    candidatePages "http://a.com" =
      ["http://a.com", urlBase "http://a.com" ++ "/contact",
       urlBase "http://a.com" ++ "/contact-us",
       urlBase "http://a.com" ++ "/about",
       urlBase "http://a.com" ++ "/about-us"] := by
  have h := crawler_request_bound_and_order cworldFail "http://a.com" 3
  exact ⟨h.1, (h.2 (by decide)).1, (h.2 (by decide)).2⟩

/-- C7: an empty website URL returns at once with no HTTP request, and a
URL none of whose candidate pages is reachable yields the empty email
list while all candidates are still attempted (each failure is caught and
the loop continues). -/
theorem crawler_unreachable_empty (world : String → Option Page)
    (url : String) (maxPages : Nat) (h : url ≠ "") :
    extract_emails_from_website world "" maxPages = ([], []) ∧
    extract_emails_from_website (fun _ => none) url maxPages =
      ([], ((candidatePages url).take maxPages).map Event.get) := by
  constructor
  · rw [extract_emails_from_website, if_pos rfl]
  · rw [extract_emails_trace (fun _ => none) url maxPages h]
    have h1 : ∀ pages : List String,
        pages.foldl (stepEmails (fun _ => none)) [] = [] := by
      intro pages
      induction pages with
      | nil => rfl
      | cons u rest ih => simpa [stepEmails] using ih
    have h2 : ∀ pages : List String,
        (pages.map (blockOf (fun _ => none))).flatten = pages.map Event.get := by
      intro pages
      induction pages with
      | nil => rfl
      | cons u rest ih => simp [blockOf, ih]
    rw [h1, h2]

theorem crawler_unreachable_empty_witness :
    extract_emails_from_website cworldFail "" 3 = ([], []) ∧
    extract_emails_from_website (fun _ => none) "http://a.com" 3 =
      ([], ((candidatePages "http://a.com").take 3).map Event.get) :=
  crawler_unreachable_empty cworldFail "http://a.com" 3 (by decide)

/-! ### C4: the search result cap -/

theorem searchLoop_spec (dw : String → Option DetailsResponse) (mr : Nat) :
    ∀ (pids : List String) (businesses : List Business),
      (searchLoop dw mr pids businesses).1 =
        businesses ++
          (searchLoop dw mr pids businesses).2.filterMap (get_place_details dw) ∧
      (searchLoop dw mr pids businesses).2 =
        pids.take (searchLoop dw mr pids businesses).2.length ∧
      (businesses.length ≤ mr → (searchLoop dw mr pids businesses).1.length ≤ mr) ∧
      ∀ i, i < (searchLoop dw mr pids businesses).2.length →
        businesses.length +
          ((pids.take i).filterMap (get_place_details dw)).length < mr := by
  intro pids
  induction pids with
  | nil =>
    intro businesses
    refine ⟨by simp [searchLoop], rfl, fun h => h, ?_⟩
    intro i hi
    simp [searchLoop] at hi
  | cons pid rest ih =>
    intro businesses
    rw [searchLoop]
    by_cases hfull : businesses.length ≥ mr
    · rw [if_pos hfull]
      refine ⟨by simp, rfl, fun h => h, ?_⟩
      intro i hi
      simp at hi
    · rw [if_neg hfull]
      dsimp only
      cases hf : get_place_details dw pid with
      | some info =>
        obtain ⟨ih1, ih2, ih3, ih4⟩ := ih (businesses ++ [info])
        refine ⟨?_, ?_, ?_, ?_⟩
        · rw [List.filterMap_cons, hf, ih1]
          simp
        · simpa [List.take_succ_cons] using ih2
        · intro _
          exact ih3 (by simp; omega)
        · intro i hi
          cases i with
          | zero => simp; omega
          | succ j =>
            have hj : j < (searchLoop dw mr rest (businesses ++ [info])).2.length := by
              simpa using hi
            have := ih4 j hj
            simp only [List.take_succ_cons, List.filterMap_cons, hf,
              List.length_cons, List.length_append, List.length_singleton] at this ⊢
            omega
      | none =>
        obtain ⟨ih1, ih2, ih3, ih4⟩ := ih businesses
        refine ⟨?_, ?_, ?_, ?_⟩
        · rw [List.filterMap_cons, hf, ih1]
        · simpa [List.take_succ_cons] using ih2
        · exact ih3
        · intro i hi
          cases i with
          | zero => simp; omega
          | succ j =>
            have hj : j < (searchLoop dw mr rest businesses).2.length := by
              simpa using hi
            have := ih4 j hj
            simp only [List.take_succ_cons, List.filterMap_cons, hf] at this ⊢
            omega

/-- C4: with an OK response carrying `results`, the orchestrator fetches
details for a prefix of the results in API order, each fetch happening
while fewer than `max_results` records are accumulated, the returned
records are exactly the successful fetches of that prefix, and at most
`max_results` records are returned. -/
theorem search_cap_and_order (dw : String → Option DetailsResponse)
    (results : List String) (mr : Nat) :
    (search_businesses (some ⟨true, results⟩) dw mr).1 =
      (search_businesses (some ⟨true, results⟩) dw mr).2.filterMap
        (get_place_details dw) ∧
    (search_businesses (some ⟨true, results⟩) dw mr).2 =
      results.take (search_businesses (some ⟨true, results⟩) dw mr).2.length ∧
    (search_businesses (some ⟨true, results⟩) dw mr).1.length ≤ mr ∧
    ∀ i, i < (search_businesses (some ⟨true, results⟩) dw mr).2.length →
      ((results.take i).filterMap (get_place_details dw)).length < mr := by
  have he : search_businesses (some ⟨true, results⟩) dw mr =
      searchLoop dw mr results [] := rfl
  rw [he]
  obtain ⟨h1, h2, h3, h4⟩ := searchLoop_spec dw mr results []
  refine ⟨by simpa using h1, h2, h3 (Nat.zero_le mr), ?_⟩
  intro i hi
  simpa using h4 i hi

/-- A detail world where every place resolves. -/
def dwAll : String → Option DetailsResponse :=
  fun _ => some { status_ok := true, name := some "B", formatted_address := none,
                  formatted_phone_number := none, website := none, types := none }

theorem search_cap_and_order_witness :
    (search_businesses (some ⟨true, ["p1", "p2", "p3"]⟩) dwAll 2).2 = ["p1", "p2"] ∧
    (search_businesses (some ⟨true, ["p1", "p2", "p3"]⟩) dwAll 2).1.length ≤ 2 :=
  ⟨rfl, (search_cap_and_order dwAll ["p1", "p2", "p3"] 2).2.2.1⟩

/-! ### C5 and C10: the coordinator's per-type split -/

/-- The search requests a coordinator run makes, when it terminates
normally. -/
def requestsOf (r : Except String (List Business × List (String × Nat))) :
    Option (List (String × Nat)) :=
  match r with
  | Except.ok p => some p.2
  | Except.error _ => none

theorem scrapeLoop_reqs (sw : String → Option SearchResponse)
    (dw : String → Option DetailsResponse) (cw : String → Option Page)
    (numTypes maxResults : Nat) (hn : numTypes ≠ 0) :
    ∀ (types : List String) (acc : List Business) (reqs : List (String × Nat)),
      ∃ bs, scrapeLoop sw dw cw numTypes maxResults types acc reqs =
        Except.ok (bs, reqs ++ types.map (fun t => (t, maxResults / numTypes))) := by
  intro types
  induction types with
  | nil =>
    intro acc reqs
    exact ⟨acc, by simp [scrapeLoop]⟩
  | cons t rest ih =>
    intro acc reqs
    rw [scrapeLoop, pyDiv, if_neg hn]
    dsimp only
    obtain ⟨bs, hbs⟩ :=
      ih (acc ++ ((search_businesses (sw t) dw (maxResults / numTypes)).1.map
        (processBusiness cw))) (reqs ++ [(t, maxResults / numTypes)])
    exact ⟨bs, by rw [hbs]; simp⟩

/-- C5: a non-empty type list makes one search request per type, each
asking for exactly `max_results` integer-divided by the number of types
(so 20 with 5 types gives 4 per type, and 22 with 5 types still 4, the
remainder dropped). -/
theorem coordinator_split (sw : String → Option SearchResponse)
    (dw : String → Option DetailsResponse) (cw : String → Option Page)
    (types : List String) (mr : Nat) (h : types ≠ []) :
    (∃ bs, scrape_business_contacts sw dw cw types mr =
        Except.ok (bs, types.map (fun t => (t, mr / types.length)))) ∧
    pyDiv 20 5 = Except.ok 4 ∧ pyDiv 22 5 = Except.ok 4 := by
  refine ⟨?_, rfl, rfl⟩
  have hn : types.length ≠ 0 := by simpa using h
  obtain ⟨bs, hbs⟩ := scrapeLoop_reqs sw dw cw types.length mr hn types [] []
  exact ⟨bs, by simpa [scrape_business_contacts] using hbs⟩

/-- A search world where every query fails in transport. -/
def swNone : String → Option SearchResponse := fun _ => none

theorem coordinator_split_witness :
    pyDiv 22 5 = Except.ok 4 ∧
    ∃ bs, scrape_business_contacts swNone dwAll cworldFail
        ["a", "b", "c", "d", "e"] 22 =
      Except.ok (bs, [("a", 4), ("b", 4), ("c", 4), ("d", 4), ("e", 4)]) := by
  have h := coordinator_split swNone dwAll cworldFail ["a", "b", "c", "d", "e"] 22
    (by decide)
  exact ⟨h.2.2, h.1⟩

/-- C10: an empty type list returns the empty record list normally — the
division by `len(business_types)` sits inside the loop body, so it never
runs and no `ZeroDivisionError` is raised. -/
theorem coordinator_empty_types (sw : String → Option SearchResponse)
    (dw : String → Option DetailsResponse) (cw : String → Option Page)
    (mr : Nat) :
    scrape_business_contacts sw dw cw [] mr = Except.ok ([], []) := rfl

/-! ### C6: the guarded average -/

/-- C6: the average-emails metric is literally `0` for an empty record
list (the division is in the unevaluated branch of the conditional) and
the exact quotient of total emails by record count otherwise. -/
theorem summary_average (businesses : List Business) :
    (businesses = [] → averageEmails businesses = 0) ∧
    (businesses ≠ [] → averageEmails businesses =
      (total_emails businesses : ℚ) / (businesses.length : ℚ)) := by
  constructor
  · intro h
    rw [averageEmails, if_pos h]
  · intro h
    rw [averageEmails, if_neg h]

def sampleBusiness : Business :=
  { name := "Acme", address := "1 Road", phone := "", website := "",
    business_types := "law firm", emails := ["info@acme.io"] }

theorem summary_average_witness :
    averageEmails [] = 0 ∧
    averageEmails [sampleBusiness] =
      (total_emails [sampleBusiness] : ℚ) / ((1 : Nat) : ℚ) := by
  refine ⟨(summary_average []).1 rfl, ?_⟩
  have h1 := (summary_average [sampleBusiness]).2 (by simp)
  simpa using h1

/-! ### C8: mailto query stripping -/

/-- C8: for a `mailto:` href carrying a query string, the candidate the
extractor pools is the part of the stripped href before the first `?`:
it contains no `?` and is strictly shorter than the stripped href. -/
theorem mailto_strips_query (href : String)
    (h : '?' ∈ (pyRemoveAll "mailto:" href).toList) :
    mailtoAddress href =
      String.mk ((pyRemoveAll "mailto:" href).toList.takeWhile (fun c => c != '?')) ∧
    '?' ∉ (mailtoAddress href).toList ∧
    (mailtoAddress href).toList.length <
      (pyRemoveAll "mailto:" href).toList.length := by
  have he : mailtoAddress href =
      String.mk ((pyRemoveAll "mailto:" href).toList.takeWhile (fun c => c != '?')) :=
    pySplit_headD '?' (pyRemoveAll "mailto:" href)
  refine ⟨he, ?_, ?_⟩
  · rw [he]
    intro hc
    have hc' : '?' ∈ (pyRemoveAll "mailto:" href).toList.takeWhile
        (fun c => c != '?') := hc
    have hmem := List.mem_takeWhile_imp hc'
    simp at hmem
  · rw [he]
    simpa using takeWhile_length_lt h

theorem mailto_strips_query_witness :
    mailtoAddress "mailto:info@a.com?subject=Hi" = "info@a.com" ∧
    '?' ∉ (mailtoAddress "mailto:info@a.com?subject=Hi").toList :=
  ⟨rfl, (mailto_strips_query "mailto:info@a.com?subject=Hi" (by decide)).2.1⟩

/-! ### C9: records are written once and read-only thereafter -/

/-- C9: a record leaves the detail fetch with an empty email list; the
coordinator's per-business step only replaces the `emails` field, every
other field untouched; and serializing reads the records into fresh rows,
handing back the record list unchanged. -/
theorem record_emails_frame (dw : String → Option DetailsResponse)
    (pid : String) (cw : String → Option Page) (r b : Business)
    (bs : List Business) (h : get_place_details dw pid = some r) :
    r.emails = [] ∧
    (processBusiness cw b).name = b.name ∧
    (processBusiness cw b).address = b.address ∧
    (processBusiness cw b).phone = b.phone ∧
    (processBusiness cw b).website = b.website ∧
    (processBusiness cw b).business_types = b.business_types ∧
    save_to_csv bs = (bs.map rowOf, bs) := by
  refine ⟨?_, ?_, ?_, ?_, ?_, ?_, rfl⟩
  · rw [get_place_details] at h
    cases hdw : dw pid with
    | none => rw [hdw] at h; cases h
    | some resp =>
      rw [hdw] at h
      dsimp only at h
      by_cases hs : resp.status_ok = true
      · rw [if_pos hs] at h
        injection h with h2
        rw [← h2]
      · rw [if_neg hs] at h
        cases h
  · rw [processBusiness]; split <;> rfl
  · rw [processBusiness]; split <;> rfl
  · rw [processBusiness]; split <;> rfl
  · rw [processBusiness]; split <;> rfl
  · rw [processBusiness]; split <;> rfl

/-- A detail world answering every place id with a full record. -/
def dwOne : String → Option DetailsResponse :=
  fun _ => some { status_ok := true, name := some "Acme",
                  formatted_address := some "1 Road",
                  formatted_phone_number := none,
                  website := some "http://a.com", types := some ["law"] }

theorem record_emails_frame_witness :
    ∃ r, get_place_details dwOne "pid0" = some r ∧ r.emails = [] := by
  refine ⟨_, rfl, ?_⟩
  exact (record_emails_frame dwOne "pid0" cworldFail _ sampleBusiness [] rfl).1

end Scraper
